import Mathlib

/-!
# Verification of the newsletter pipeline (`newsletter_pipeline.py`)

Shallow embedding of the pure core of the pipeline: scoring and selection of
RSS candidates, content extraction post-processing, the four-section LLM
generation protocol, article trimming, vocabulary parsing and HTML rendering.

External effects (network fetches, the LLM HTTP backend, file I/O, the system
clock) are passed in as explicit parameters: a feed entry becomes an `Article`
record, the backend becomes a `String → Option String` oracle (`none` models a
transport error or a non-200 status), the template file and the current date
become plain string arguments.  Python strings are modelled as Lean `String` /
`List Char` (Python `len` counts code points, as does `List.length` on
`String.data`).
-/

namespace Newsletter

/-- Python's default whitespace class for `str.strip` / `\s`
(space, tab, newline, carriage return, vertical tab, form feed). -/
def pyEspace (c : Char) : Bool :=
  c = ' ' || c = '\t' || c = '\n' || c = '\r' || c = '\x0b' || c = '\x0c'

/-- Python `str.strip()` on a character list: drop whitespace at both ends. -/
def pyStrip (l : List Char) : List Char :=
  ((l.dropWhile pyEspace).reverse.dropWhile pyEspace).reverse

/-- Python `str.strip()` on a `String`. -/
def pyStripStr (s : String) : String :=
  ⟨pyStrip s.data⟩

/-- Python `str.lower()`: character-wise lowercasing (the titles and keywords
relevant here are ASCII, where `Char.toLower` agrees with Python). -/
def pyLower (s : String) : List Char :=
  s.data.map Char.toLower

/-- `commencePar needle hay`: `hay` starts with `needle`. -/
def commencePar : List Char → List Char → Bool
  | [], _ => true
  | _ :: _, [] => false
  | c :: cs, d :: ds => c = d && commencePar cs ds

/-- Python's substring test `needle in hay`. -/
def contientSous (needle : List Char) : List Char → Bool
  | [] => needle.isEmpty
  | d :: ds => commencePar needle (d :: ds) || contientSous needle ds

/-- Python `text.split('\n')`: split at every newline, keeping empty pieces. -/
def decoupeLignes : List Char → List (List Char)
  | [] => [[]]
  | c :: t =>
    if c = '\n' then
      [] :: decoupeLignes t
    else
      match decoupeLignes t with
      | l :: ls => (c :: l) :: ls
      | [] => [[c]]

/-- Python `s.rsplit('.', 1)[0]`: everything strictly before the last `'.'`,
or the whole list when no `'.'` occurs. -/
def avantDernierPoint : List Char → List Char
  | [] => []
  | c :: t =>
    if t.contains '.' then c :: avantDernierPoint t
    else if c = '.' then []
    else c :: avantDernierPoint t

/-! ## Configuration constants (`newsletter_pipeline.py`, lines 44-54) -/

def MOTS_CLES_POSITIFS : List String :=
  ["kultur", "gesellschaft", "geschichte", "umwelt", "europa",
   "kunst", "musik", "film", "literatur", "wissenschaft"]

def MOTS_CLES_NEGATIFS : List String :=
  ["tote", "krieg", "angriff", "terror", "krise", "gewalt",
   "eilmeldung", "breaking", "live"]

def SEUIL_SELECTION : Int := 6

/-! ## Data model -/

/-- One raw feed entry, as assembled by `recuperer_articles_rss`
(`newsletter_pipeline.py`, lines 84-91). -/
structure Article where
  titre : String
  url : String
  description : String
  source : String
  score_base : Int
  date : String
deriving DecidableEq, Repr

/-! ## Step 2: scoring and selection -/

/-- One keyword loop of `scorer_article`: scan `mots` in order and add `delta`
once at the first keyword contained in `titre_lower`; further matches never
stack (the Python loop exits with `break`). -/
def boucleMotsCles (mots : List String) (titre_lower : List Char) (delta : Int) : Int :=
  match mots with
  | [] => 0
  | mot :: reste =>
    if contientSous mot.data titre_lower then delta
    else boucleMotsCles reste titre_lower delta

/-- `scorer_article` (`newsletter_pipeline.py`, lines 104-129). -/
def scorer_article (article : Article) : Int :=
  let titre_lower := pyLower article.titre
  let score := article.score_base
  let score := score + boucleMotsCles MOTS_CLES_POSITIFS titre_lower 3
  let score := score + boucleMotsCles MOTS_CLES_NEGATIFS titre_lower (-5)
  let score := if article.titre.length < 80 then score + 1 else score
  let score :=
    if !(["eilmeldung", "breaking", "live"].any fun x => contientSous x.data titre_lower)
    then score + 2 else score
  score

/-- The filtering step of `selectionner_meilleur_article` (lines 140-143):
score an article and keep it, paired with its score, when the score reaches
`SEUIL_SELECTION`. -/
def filtre_score (article : Article) : Option (Article × Int) :=
  let score := scorer_article article
  if SEUIL_SELECTION ≤ score then some (article, score) else none

/-- The comparison handed to the sort in `selectionner_meilleur_article`:
Python's `sort(key=lambda x: x[1], reverse=True)` is a stable descending sort
on the score component. -/
def cle_tri (x y : Article × Int) : Bool :=
  decide (y.2 ≤ x.2)

/-- `selectionner_meilleur_article` (`newsletter_pipeline.py`, lines 132-165):
keep the articles at or above the threshold, sort them by score, stably and
in descending order, and return the first one; `none` when nothing survives
the filter.  (`List.mergeSort` is a stable sort, like Python's `list.sort`.) -/
def selectionner_meilleur_article (articles : List Article) : Option Article :=
  let articles_scores := articles.filterMap filtre_score
  match List.mergeSort articles_scores cle_tri with
  | [] => none
  | meilleur :: _ => some meilleur.1

/-! ## Step 3: content extraction -/

/-- The paragraphs kept by `extraire_contenu_article`: exactly those whose
stripped text exceeds 30 characters, stripped, in page order. -/
def paragraphes_retenus (paragraphes : List String) : List String :=
  (paragraphes.map pyStripStr).filter fun texte => 30 < texte.length

/-- The pure core of `extraire_contenu_article` (`newsletter_pipeline.py`,
lines 185-198): the fetched page is modelled as the list of `get_text()`
results of its `<p>` blocks.  Strip each, keep those longer than 30
characters, join with a blank line and cut to the first 2000 characters. -/
def extraire_contenu_article (paragraphes : List String) : String :=
  let texte_complet := paragraphes.foldl
    (fun acc p =>
      let texte := pyStripStr p
      if 30 < texte.length then acc ++ [texte] else acc)
    []
  let contenu := String.intercalate "\n\n" texte_complet
  ⟨contenu.data.take 2000⟩

/-! ## Step 4: LLM generation -/

/-- The article-slot cleanup of `generer_section_llm` (lines 276-278):
a generated text longer than 650 characters is cut to its first 650
characters, backed off to the last period (`rsplit('.', 1)[0]`) and closed
with a period.  (The `section_type == "article"` half of the guard lives in
`generer_section_llm` below; the length half lives here.) -/
def nettoyage_article (generated : List Char) : List Char :=
  if 650 < generated.length then
    avantDernierPoint (generated.take 650) ++ ['.']
  else generated

/-- `generer_section_llm` (`newsletter_pipeline.py`, lines 209-286), with the
HTTP exchange abstracted: `reponse` is `some r` when the backend answered 200
with body field `r`, and `none` on a non-200 status or a transport error.
The body is stripped, and only the `"article"` slot is further trimmed. -/
def generer_section_llm (reponse : Option String) (section_type : String) :
    Option String :=
  match reponse with
  | none => none
  | some r =>
    let generated := pyStrip r.data
    let generated :=
      if section_type = "article" then nettoyage_article generated else generated
    some ⟨generated⟩

/-- The four named slots of a newsletter (`sections` dict of
`generer_newsletter_llm`). -/
structure Sections where
  article : String
  vocabulaire : String
  grammaire : String
  resume : String
deriving DecidableEq, Repr

/-- The fixed order in which `generer_newsletter_llm` requests its sections. -/
def ordre_sections : List String :=
  ["article", "vocabulaire", "grammaire", "resume"]

/-- Python truthiness of one generated slot: present (`some`) and non-empty.
`generer_newsletter_llm` aborts on any slot failing this test. -/
def section_valide : Option String → Bool
  | some s => s != ""
  | none => false

/-- `generer_newsletter_llm` (`newsletter_pipeline.py`, lines 289-335),
instrumented with the list of section kinds actually requested: `gen t`
stands for `generer_section_llm(contenu, titre, t)`.  The source requests
`article`, `vocabulaire`, `grammaire`, `resume` in that order and returns
`None` as soon as one request yields a falsy (`None` or empty) result. -/
def generer_newsletter_llm_trace (gen : String → Option String) :
    Option Sections × List String :=
  match gen "article" with
  | none => (none, ["article"])
  | some a =>
    if a = "" then (none, ["article"])
    else
      match gen "vocabulaire" with
      | none => (none, ["article", "vocabulaire"])
      | some v =>
        if v = "" then (none, ["article", "vocabulaire"])
        else
          match gen "grammaire" with
          | none => (none, ["article", "vocabulaire", "grammaire"])
          | some g =>
            if g = "" then (none, ["article", "vocabulaire", "grammaire"])
            else
              match gen "resume" with
              | none => (none, ["article", "vocabulaire", "grammaire", "resume"])
              | some r =>
                if r = "" then
                  (none, ["article", "vocabulaire", "grammaire", "resume"])
                else
                  (some ⟨a, v, g, r⟩,
                   ["article", "vocabulaire", "grammaire", "resume"])

/-- The value `generer_newsletter_llm` returns: all four sections, or `none`. -/
def generer_newsletter_llm (gen : String → Option String) : Option Sections :=
  (generer_newsletter_llm_trace gen).1

/-- The section kinds `generer_newsletter_llm` actually requested. -/
def appels_sections (gen : String → Option String) : List String :=
  (generer_newsletter_llm_trace gen).2

/-! ## Step 5: HTML rendering -/

/-- `re.sub(r'^\d+\.\s*', '', s)` from line 364: strip one leading
`<digits>.` ordinal marker (with its trailing whitespace); the pattern is
anchored, so a line not starting with digits is left intact. -/
def retireOrdinal (l : List Char) : List Char :=
  let chiffres := l.takeWhile Char.isDigit
  if chiffres.isEmpty then l
  else
    match l.drop chiffres.length with
    | '.' :: reste => reste.dropWhile pyEspace
    | _ => l

/-- One vocabulary line (`newsletter_pipeline.py`, lines 361-365): a line
containing `'='` is split at its first `'='`, the ordinal marker is stripped
from the left part, both sides are whitespace-trimmed; a line without `'='`
yields nothing. -/
def vocab_ligne (ligne : List Char) : Option (String × String) :=
  if ligne.contains '=' then
    let mot := ligne.takeWhile (· ≠ '=')
    let trad := (ligne.dropWhile (· ≠ '=')).drop 1
    some (⟨pyStrip (retireOrdinal mot)⟩, ⟨pyStrip trad⟩)
  else none

/-- The `<li>` block emitted for one parsed vocabulary pair (the f-string of
lines 366-370, whitespace included). -/
def vocab_item_html (mot trad : String) : String :=
  "\n                    <li class=\"vocab-item\">\n                        <div class=\"vocab-word\">"
    ++ mot
    ++ "</div>\n                        <div class=\"vocab-translation\">= "
    ++ trad
    ++ "</div>\n                    </li>"

/-- The derived vocabulary list: one `(word, translation)` pair per line
containing `'='`, in source line order. -/
def liste_vocab (voc : String) : List (String × String) :=
  (decoupeLignes voc.data).filterMap vocab_ligne

/-- The `vocab_html` accumulation loop of `generer_html` (lines 359-370):
fold over the lines of the vocabulary slot, appending one `<li>` block per
line that parses. -/
def vocab_html (voc : String) : String :=
  (decoupeLignes voc.data).foldl
    (fun acc ligne =>
      match vocab_ligne ligne with
      | some (mot, trad) => acc ++ vocab_item_html mot trad
      | none => acc)
    ""

/-- Python `s.replace('\n', '<br><br>')` applied to a section slot. -/
def remplaceSauts (s : String) : String :=
  s.replace "\n" "<br><br>"

/-- The pure HTML assembly of `generer_html` (`newsletter_pipeline.py`,
lines 342-402): template loading is replaced by the template text argument
and `datetime.now().strftime("%d/%m/%Y")` by the frozen `date_du_jour`
argument; the file write at the end is outside the embedding.  Placeholders
are substituted by flat find-and-replace, in the dict order of the source. -/
def generer_html (titre : String) (sections : Sections) (url_source : String)
    (template : String) (date_du_jour : String) : String :=
  let vocab := vocab_html sections.vocabulaire
  let remplacements : List (String × String) :=
    [("\x7b\x7bTITRE_ARTICLE\x7d\x7d", titre),
     ("\x7b\x7bARTICLE_SIMPLIFIE\x7d\x7d", remplaceSauts sections.article),
     ("\x7b\x7bVOCABULAIRE_ITEMS\x7d\x7d", vocab),
     ("\x7b\x7bPOINT_LANGUE\x7d\x7d", remplaceSauts sections.grammaire),
     ("\x7b\x7bRESUME_FRANCAIS\x7d\x7d", remplaceSauts sections.resume),
     ("\x7b\x7bDATE\x7d\x7d", date_du_jour),
     ("\x7b\x7bLIEN_ARTICLE\x7d\x7d", url_source)]
  remplacements.foldl (fun html pv => html.replace pv.1 pv.2) template

/-! ## Concrete candidates of the end-to-end scenario -/

/-- The Source A candidate of the end-to-end scenario: DW Culture has base
score 2 (`FLUX_RSS`, lines 31-42). -/
def article_kultur : Article :=
  { titre := "Kultur in Berlin", url := "https://example.invalid/kultur",
    description := "", source := "DW Culture", score_base := 2, date := "" }

/-- The Source B candidate of the end-to-end scenario: Tagesschau has base
score 1. -/
def article_angriff : Article :=
  { titre := "Angriff in der Stadt", url := "https://example.invalid/angriff",
    description := "", source := "Tagesschau", score_base := 1, date := "" }

/-! ## Helper lemmas -/

/-- A keyword loop contributes its delta exactly once, whenever any keyword of
the list occurs in the title, and nothing otherwise. -/
theorem boucleMotsCles_eq_ite (mots : List String) (t : List Char) (d : Int) :
    boucleMotsCles mots t d =
      if mots.any (fun m => contientSous m.data t) then d else 0 := by
  induction mots with
  | nil => simp [boucleMotsCles]
  | cons m reste ih =>
    by_cases h : contientSous m.data t
    · simp [boucleMotsCles, h]
    · simp [boucleMotsCles, h, ih]

/-- `cle_tri` is transitive. -/
theorem cle_tri_trans : ∀ a b c : Article × Int, cle_tri a b → cle_tri b c → cle_tri a c := by
  intro a b c hab hbc
  simp only [cle_tri, decide_eq_true_eq] at *
  omega

/-- `cle_tri` is total. -/
theorem cle_tri_total : ∀ a b : Article × Int, cle_tri a b || cle_tri b a := by
  intro a b
  simp only [cle_tri, Bool.or_eq_true, decide_eq_true_eq]
  omega

/-- Inversion of the threshold filter. -/
theorem filtre_score_some {b : Article} {p : Article × Int}
    (h : filtre_score b = some p) :
    p = (b, scorer_article b) ∧ SEUIL_SELECTION ≤ scorer_article b := by
  by_cases hc : SEUIL_SELECTION ≤ scorer_article b
  · simp only [filtre_score, if_pos hc, Option.some.injEq] at h
    exact ⟨h.symm, hc⟩
  · simp [filtre_score, if_neg hc] at h

/-- The head of the stable descending sort dominates every element of the
input list. -/
theorem tete_tri_max {l : List (Article × Int)} {p : Article × Int}
    {reste : List (Article × Int)}
    (h : List.mergeSort l cle_tri = p :: reste) :
    ∀ q ∈ l, q.2 ≤ p.2 := by
  intro q hq
  have hmem : q ∈ p :: reste := h ▸ List.mem_mergeSort.mpr hq
  rcases List.mem_cons.mp hmem with rfl | hmem'
  · exact le_refl _
  · have hs := List.sorted_mergeSort cle_tri_trans cle_tri_total l
    rw [h] at hs
    have := List.rel_of_pairwise_cons hs hmem'
    simpa [cle_tri] using this

/-- Stability: everything strictly before a prefix avoiding the head of the
stable descending sort scores strictly less than that head. -/
theorem tete_tri_premier {l s1 s2 : List (Article × Int)} {p : Article × Int}
    {reste : List (Article × Int)}
    (h : List.mergeSort l cle_tri = p :: reste)
    (hl : l = s1 ++ s2) (hp : p ∉ s1) :
    ∀ b ∈ s1, b.2 < p.2 := by
  intro b hb
  have hble : b.2 ≤ p.2 :=
    tete_tri_max h b (by rw [hl]; exact List.mem_append_left _ hb)
  rcases lt_or_eq_of_le hble with hlt | heq
  · exact hlt
  exfalso
  have hbp : b ≠ p := fun e => hp (e ▸ hb)
  have hpmem : p ∈ l := List.mem_mergeSort.mp (h ▸ List.mem_cons_self p reste)
  have hps2 : p ∈ s2 := by
    rcases List.mem_append.mp (hl ▸ hpmem) with h1 | h1
    · exact absurd h1 hp
    · exact h1
  have hk1 : 1 ≤ List.count p s2 := List.count_pos_iff.mpr hps2
  have hsub_l : List.Sublist (b :: List.replicate (List.count p s2) p) l := by
    rw [hl]
    exact (List.singleton_sublist.mpr hb).append
      (List.le_count_iff_replicate_sublist.mp (le_refl _))
  have hpair : (b :: List.replicate (List.count p s2) p).Pairwise
      (fun x y => cle_tri x y = true) := by
    refine List.pairwise_cons.mpr ⟨?_, ?_⟩
    · intro x hx
      rw [List.eq_of_mem_replicate hx]
      simp [cle_tri, heq]
    · refine List.pairwise_replicate.mpr (Or.inr ?_)
      simp [cle_tri]
  have hsub_ms := List.sublist_mergeSort cle_tri_trans cle_tri_total hpair hsub_l
  rw [h] at hsub_ms
  have hrep : List.Sublist (List.replicate (List.count p s2) p) reste := by
    cases hsub_ms with
    | cons _ htail => exact List.sublist_of_cons_sublist htail
    | cons₂ _ htail => exact absurd rfl hbp
  have hcount_rest : List.count p s2 ≤ List.count p reste :=
    List.le_count_iff_replicate_sublist.mpr hrep
  have hperm : List.count p (p :: reste) = List.count p s1 + List.count p s2 := by
    have hc := (List.mergeSort_perm l cle_tri).countP_eq (· == p)
    rw [h, hl, List.countP_append] at hc
    exact hc
  have h0 : List.count p s1 = 0 := List.count_eq_zero.mpr hp
  rw [List.count_cons_self, h0, Nat.zero_add] at hperm
  omega

/-- Every member of a list sits after a prefix that avoids it. -/
theorem premiere_occurrence {α : Type _} {a : α} {l : List α} (h : a ∈ l) :
    ∃ s t, l = s ++ a :: t ∧ a ∉ s := by
  induction l with
  | nil => cases h
  | cons x xs ih =>
    by_cases hx : a = x
    · exact ⟨[], xs, by simp [hx], by simp⟩
    · have hm : a ∈ xs := by
        rcases List.mem_cons.mp h with h1 | h1
        · exact absurd h1 hx
        · exact h1
      obtain ⟨s, t, hst, hns⟩ := ih hm
      exact ⟨x :: s, t, by rw [List.cons_append, hst], by simp [hns, hx]⟩

/-! ## Claims about scoring and selection -/

/-- C1: `scorer_article` adds to the base score exactly +3 for a positive
keyword hit (once, however many keywords match), -5 for a negative keyword
hit (once), +1 for a title of fewer than 80 characters, and +2 when the
lower-cased title contains none of `eilmeldung`, `breaking`, `live`. -/
theorem scorer_article_decompose (a : Article) :
    scorer_article a =
      a.score_base
      + (if MOTS_CLES_POSITIFS.any (fun m => contientSous m.data (pyLower a.titre))
         then 3 else 0)
      - (if MOTS_CLES_NEGATIFS.any (fun m => contientSous m.data (pyLower a.titre))
         then 5 else 0)
      + (if a.titre.length < 80 then 1 else 0)
      + (if ["eilmeldung", "breaking", "live"].any
            (fun x => contientSous x.data (pyLower a.titre))
         then 0 else 2) := by
  cases hpos : MOTS_CLES_POSITIFS.any (fun m => contientSous m.data (pyLower a.titre)) <;>
    cases hneg : MOTS_CLES_NEGATIFS.any (fun m => contientSous m.data (pyLower a.titre)) <;>
      cases hbrk : ["eilmeldung", "breaking", "live"].any
          (fun x => contientSous x.data (pyLower a.titre)) <;>
        by_cases hlen : a.titre.length < 80 <;>
          simp [scorer_article, boucleMotsCles_eq_ite, hpos, hneg, hbrk, hlen] <;>
            omega

/-- C7: when no candidate reaches the threshold (in particular when there is
no candidate at all), selection returns the defined `none` result — the
embedding is a total function, so no exception can escape. -/
theorem selection_vide_none (articles : List Article)
    (h : ∀ b ∈ articles, scorer_article b < SEUIL_SELECTION) :
    selectionner_meilleur_article articles = none := by
  have hempty : articles.filterMap filtre_score = [] := by
    rw [List.filterMap_eq_nil_iff]
    intro b hb
    simp [filtre_score, not_le.mpr (h b hb)]
  have hdef : selectionner_meilleur_article articles =
      match List.mergeSort (articles.filterMap filtre_score) cle_tri with
      | [] => none
      | meilleur :: _ => some meilleur.1 := rfl
  rw [hdef, hempty, List.mergeSort_nil]

/-- Witness for C7: the list holding only the negatively scored candidate
(score −1) filters to nothing and selection returns `none`. -/
theorem selection_vide_none_temoin :
    (∀ b ∈ [article_angriff], scorer_article b < SEUIL_SELECTION) ∧
      selectionner_meilleur_article [article_angriff] = none :=
  ⟨by decide, selection_vide_none [article_angriff] (by decide)⟩

/-- C8: in the end-to-end scenario, "Kultur in Berlin" (base 2) scores
2+3+1+2 = 8, "Angriff in der Stadt" (base 1) scores 1-5+1+2 = −1, and only
the former clears the threshold and is selected. -/
theorem scenario_bout_en_bout :
    scorer_article article_kultur = 8 ∧
      scorer_article article_angriff = -1 ∧
      selectionner_meilleur_article [article_kultur, article_angriff] =
        some article_kultur := by
  refine ⟨by decide, by decide, ?_⟩
  have hscored : [article_kultur, article_angriff].filterMap filtre_score
      = [(article_kultur, 8)] := by decide
  have h : selectionner_meilleur_article [article_kultur, article_angriff] =
      match List.mergeSort ([article_kultur, article_angriff].filterMap filtre_score)
        cle_tri with
      | [] => none
      | meilleur :: _ => some meilleur.1 := rfl
  rw [hscored, List.mergeSort_singleton] at h
  exact h

/-- C3: selection keeps exactly the candidates with score ≥ 6; when the
filtered set is non-empty it returns a candidate of maximal score, the
earliest-collected one among equal maximal scores (every earlier candidate
scores strictly less), and it never returns a candidate below the
threshold. -/
theorem selection_correcte (articles : List Article) :
    ((∃ b ∈ articles, SEUIL_SELECTION ≤ scorer_article b) →
       ∃ a, selectionner_meilleur_article articles = some a) ∧
    ∀ a, selectionner_meilleur_article articles = some a →
      SEUIL_SELECTION ≤ scorer_article a ∧
      (∀ b ∈ articles, SEUIL_SELECTION ≤ scorer_article b →
         scorer_article b ≤ scorer_article a) ∧
      ∃ l1 l2, articles = l1 ++ a :: l2 ∧
        ∀ b ∈ l1, scorer_article b < scorer_article a := by
  have hdef : selectionner_meilleur_article articles =
      match List.mergeSort (articles.filterMap filtre_score) cle_tri with
      | [] => none
      | meilleur :: _ => some meilleur.1 := rfl
  constructor
  · rintro ⟨b, hbmem, hbsc⟩
    have hmem : (b, scorer_article b) ∈ articles.filterMap filtre_score :=
      List.mem_filterMap.mpr ⟨b, hbmem, by simp [filtre_score, hbsc]⟩
    cases htri : List.mergeSort (articles.filterMap filtre_score) cle_tri with
    | nil =>
      have hmem2 : (b, scorer_article b) ∈ ([] : List (Article × Int)) := by
        rw [← htri]
        exact List.mem_mergeSort.mpr hmem
      exact absurd hmem2 (List.not_mem_nil _)
    | cons p reste =>
      rw [hdef, htri]
      exact ⟨p.1, rfl⟩
  · intro a ha
    rw [hdef] at ha
    cases htri : List.mergeSort (articles.filterMap filtre_score) cle_tri with
    | nil => rw [htri] at ha; cases ha
    | cons p reste =>
      rw [htri] at ha
      simp only [Option.some.injEq] at ha
      have hpm : p ∈ articles.filterMap filtre_score :=
        List.mem_mergeSort.mp (htri ▸ List.mem_cons_self p reste)
      obtain ⟨b0, hb0mem, hb0⟩ := List.mem_filterMap.mp hpm
      obtain ⟨hp_eq, hb0sc⟩ := filtre_score_some hb0
      have ha0 : a = b0 := by rw [← ha, hp_eq]
      subst ha0
      have hp2 : p.2 = scorer_article a := by rw [hp_eq]
      refine ⟨hb0sc, ?_, ?_⟩
      · intro b hbmem hbsc
        have hbp : (b, scorer_article b) ∈ articles.filterMap filtre_score :=
          List.mem_filterMap.mpr ⟨b, hbmem, by simp [filtre_score, hbsc]⟩
        have := tete_tri_max htri _ hbp
        rw [hp2] at this
        exact this
      · obtain ⟨s, t, hst, hns⟩ := premiere_occurrence hb0mem
        refine ⟨s, t, hst, ?_⟩
        intro b hbs
        by_cases hbsc : SEUIL_SELECTION ≤ scorer_article b
        · have hbpair : (b, scorer_article b) ∈ s.filterMap filtre_score :=
            List.mem_filterMap.mpr ⟨b, hbs, by simp [filtre_score, hbsc]⟩
          have hsplit : articles.filterMap filtre_score =
              s.filterMap filtre_score ++ (a :: t).filterMap filtre_score := by
            rw [hst, List.filterMap_append]
          have hpns1 : p ∉ s.filterMap filtre_score := by
            intro hmem'
            obtain ⟨x, hxs, hxf⟩ := List.mem_filterMap.mp hmem'
            obtain ⟨hx_eq, _⟩ := filtre_score_some hxf
            have : x = a := by
              have h2 := congrArg Prod.fst (hp_eq.symm.trans hx_eq)
              simpa using h2.symm
            exact hns (this ▸ hxs)
          have := tete_tri_premier htri hsplit hpns1 _ hbpair
          rw [hp2] at this
          exact this
        · have h1 : scorer_article b < SEUIL_SELECTION := not_le.mp hbsc
          omega

/-- Witness for C3: on the two-candidate scenario list, the filtered set is
non-empty, selection succeeds, and the selected candidate satisfies the
threshold, maximality and earliest-tie-break conclusions. -/
theorem selection_correcte_temoin :
    (∃ b ∈ [article_kultur, article_angriff],
        SEUIL_SELECTION ≤ scorer_article b) ∧
      ∃ a, selectionner_meilleur_article [article_kultur, article_angriff] = some a :=
  ⟨⟨article_kultur, by decide⟩,
    (selection_correcte [article_kultur, article_angriff]).1
      ⟨article_kultur, by decide⟩⟩

/-! ## Claims about article trimming -/

/-- `List.contains` agrees with membership on characters. -/
theorem contains_car_iff {l : List Char} {a : Char} : l.contains a = true ↔ a ∈ l :=
  List.elem_iff

/-- `rsplit('.', 1)[0]` leaves a period-free list unchanged. -/
theorem avantDernierPoint_sans_point {l : List Char} (h : '.' ∉ l) :
    avantDernierPoint l = l := by
  induction l with
  | nil => rfl
  | cons c t ih =>
    simp only [List.mem_cons, not_or] at h
    have hcont : t.contains '.' = false :=
      Bool.eq_false_iff.mpr fun hx => h.2 (contains_car_iff.mp hx)
    simp [avantDernierPoint, hcont, Ne.symm h.1, ih h.2]

/-- `rsplit('.', 1)[0]` returns exactly the part before the last period. -/
theorem avantDernierPoint_dernier {u v : List Char} (hv : '.' ∉ v) :
    avantDernierPoint (u ++ '.' :: v) = u := by
  induction u with
  | nil =>
    have hcont : v.contains '.' = false :=
      Bool.eq_false_iff.mpr fun hx => hv (contains_car_iff.mp hx)
    simp [avantDernierPoint, hcont, hv]
  | cons c t ih =>
    have hcont : (t ++ '.' :: v).contains '.' = true :=
      contains_car_iff.mpr (List.mem_append_right _ (List.mem_cons_self _ _))
    simp [avantDernierPoint, hcont, ih]

/-- Trimming an over-long article backs off to the last period of its first
650 characters. -/
theorem nettoyage_article_dernier_point {g u v : List Char}
    (hlen : 650 < g.length) (htake : g.take 650 = u ++ '.' :: v)
    (hv : '.' ∉ v) :
    nettoyage_article g = u ++ ['.'] := by
  unfold nettoyage_article
  rw [if_pos hlen, htake, avantDernierPoint_dernier hv]

/-- C4: post-processing trims only the `article` slot; an over-long article
is cut at 650 characters and backed off to the last period of that window;
in particular a 700-character text whose window-last period sits at position
640 (640 characters, the period, then 59 more characters, none of the next
nine being a period) is cut to exactly its first 641 characters, ending at
that period. -/
theorem decoupage_article_spec :
    (∀ (r : String) (t : String), t ≠ "article" →
        generer_section_llm (some r) t = some ⟨pyStrip r.data⟩) ∧
    (∀ r : String, (pyStrip r.data).length ≤ 650 →
        generer_section_llm (some r) "article" = some ⟨pyStrip r.data⟩) ∧
    (∀ g u v : List Char, 650 < g.length → g.take 650 = u ++ '.' :: v →
        '.' ∉ v → nettoyage_article g = u ++ ['.']) ∧
    (∀ u v : List Char, u.length = 640 → v.length = 59 → '.' ∉ v.take 9 →
        nettoyage_article (u ++ '.' :: v) = u ++ ['.'] ∧
        u ++ ['.'] = (u ++ '.' :: v).take 641) := by
  refine ⟨?_, ?_, ?_, ?_⟩
  · intro r t ht
    simp [generer_section_llm, ht]
  · intro r hlen
    simp [generer_section_llm, nettoyage_article, Nat.not_lt.mpr hlen]
  · intro g u v hlen htake hv
    exact nettoyage_article_dernier_point hlen htake hv
  · intro u v hu hv hnine
    have hlen : 650 < (u ++ '.' :: v).length := by
      simp [List.length_append, hu, hv]
    have htake : (u ++ '.' :: v).take 650 = u ++ '.' :: v.take 9 := by
      rw [List.take_append_eq_append_take, List.take_of_length_le (by omega), hu]
      norm_num
    refine ⟨nettoyage_article_dernier_point hlen htake hnine, ?_⟩
    rw [List.take_append_eq_append_take, List.take_of_length_le (by omega), hu]
    norm_num

/-- Witness for C4: the concrete 700-character text made of 640 `'a'`s, one
period and 59 `'b'`s is trimmed to the 640 `'a'`s followed by the period,
which is its 641-character prefix. -/
theorem decoupage_article_temoin :
    (List.replicate 640 'a' : List Char).length = 640 ∧
      (List.replicate 59 'b' : List Char).length = 59 ∧
      '.' ∉ (List.replicate 59 'b' : List Char).take 9 ∧
      (nettoyage_article (List.replicate 640 'a' ++ '.' :: List.replicate 59 'b')
          = List.replicate 640 'a' ++ ['.'] ∧
        List.replicate 640 'a' ++ ['.']
          = (List.replicate 640 'a' ++ '.' :: List.replicate 59 'b').take 641) :=
  ⟨by rw [List.length_replicate], by rw [List.length_replicate], by decide,
    decoupage_article_spec.2.2.2 _ _ (by rw [List.length_replicate])
      (by rw [List.length_replicate]) (by decide)⟩

/-- C10: when the first 650 characters of an over-long article contain no
period, the trimmed slot is those 650 characters with a period appended — a
651-character string whose final period is not a sentence boundary of the
original text; and an over-long article always ends with a period after
trimming. -/
theorem decoupage_sans_point_spec :
    (∀ g : List Char, 650 < g.length → '.' ∉ g.take 650 →
        nettoyage_article g = g.take 650 ++ ['.'] ∧
          (nettoyage_article g).length = 651) ∧
    ∀ g : List Char, 650 < g.length →
        (nettoyage_article g).getLast? = some '.' := by
  constructor
  · intro g hlen hnp
    have hres : nettoyage_article g = g.take 650 ++ ['.'] := by
      unfold nettoyage_article
      rw [if_pos hlen, avantDernierPoint_sans_point hnp]
    refine ⟨hres, ?_⟩
    rw [hres]
    simp [List.length_append, List.length_take_of_le (le_of_lt hlen)]
  · intro g hlen
    unfold nettoyage_article
    rw [if_pos hlen]
    exact List.getLast?_concat _

set_option maxRecDepth 4000 in
/-- Witness for C10: 700 `'a'`s are trimmed to 650 `'a'`s plus an appended
period, of length 651 and ending with a period. -/
theorem decoupage_sans_point_temoin :
    (650 < (List.replicate 700 'a' : List Char).length ∧
        '.' ∉ (List.replicate 700 'a' : List Char).take 650) ∧
      (nettoyage_article (List.replicate 700 'a')
          = (List.replicate 700 'a').take 650 ++ ['.'] ∧
        (nettoyage_article (List.replicate 700 'a')).length = 651) ∧
      (nettoyage_article (List.replicate 700 'a')).getLast? = some '.' :=
  ⟨⟨by rw [List.length_replicate]; norm_num, by decide⟩,
    decoupage_sans_point_spec.1 _ (by rw [List.length_replicate]; norm_num)
      (by decide),
    decoupage_sans_point_spec.2 _ (by rw [List.length_replicate]; norm_num)⟩

/-! ## Claims about content extraction -/

/-- The paragraph-accumulation loop of `extraire_contenu_article` appends
exactly the kept paragraphs to its accumulator. -/
theorem extraction_fold (ps : List String) (acc : List String) :
    ps.foldl
      (fun acc p =>
        let texte := pyStripStr p
        if 30 < texte.length then acc ++ [texte] else acc)
      acc
    = acc ++ paragraphes_retenus ps := by
  induction ps generalizing acc with
  | nil => simp [paragraphes_retenus]
  | cons p ps ih =>
    by_cases h : 30 < (pyStripStr p).length
    · simp [paragraphes_retenus, List.filter_cons, h, ih, List.append_assoc]
    · simp [paragraphes_retenus, List.filter_cons, h, ih]

/-- C6: content extraction keeps exactly the paragraphs whose stripped text
exceeds 30 characters, joins them with a blank line, truncates to the first
2000 characters, and therefore always returns at most 2000 characters. -/
theorem extraction_contenu_spec (paragraphes : List String) :
    (extraire_contenu_article paragraphes).length ≤ 2000 ∧
      extraire_contenu_article paragraphes =
        ⟨(String.intercalate "\n\n" (paragraphes_retenus paragraphes)).data.take 2000⟩ ∧
      ∀ texte ∈ paragraphes_retenus paragraphes,
        30 < texte.length ∧ ∃ p ∈ paragraphes, texte = pyStripStr p := by
  have hlist : paragraphes.foldl
      (fun acc p =>
        let texte := pyStripStr p
        if 30 < texte.length then acc ++ [texte] else acc)
      [] = paragraphes_retenus paragraphes := by
    simpa using extraction_fold paragraphes []
  have hdef : extraire_contenu_article paragraphes =
      ⟨(String.intercalate "\n\n" (paragraphes.foldl
        (fun acc p =>
          let texte := pyStripStr p
          if 30 < texte.length then acc ++ [texte] else acc)
        [])).data.take 2000⟩ := rfl
  rw [hlist] at hdef
  refine ⟨?_, hdef, ?_⟩
  · rw [hdef]
    exact List.length_take_le _ _
  · intro texte ht
    unfold paragraphes_retenus at ht
    rw [List.mem_filter] at ht
    obtain ⟨hmem, hlen⟩ := ht
    obtain ⟨p, hp, hpe⟩ := List.mem_map.mp hmem
    exact ⟨by simpa using hlen, p, hp, hpe.symm⟩

/-- Witness for C6: the extracted content of a two-paragraph page respects
the 2000-character cap. -/
theorem extraction_contenu_temoin :
    (extraire_contenu_article
      ["  Ein sehr langer Absatz über die Kultur in Deutschland.  ", "kurz"]).length
      ≤ 2000 :=
  (extraction_contenu_spec
    ["  Ein sehr langer Absatz über die Kultur in Deutschland.  ", "kurz"]).1

/-! ## Claims about vocabulary parsing and rendering -/

/-- `String.join` distributes over `cons`. -/
theorem join_cons (a : String) (l : List String) :
    String.join (a :: l) = a ++ String.join l := by
  have aux : ∀ (l : List String) (x y : String),
      l.foldl (· ++ ·) (x ++ y) = x ++ l.foldl (· ++ ·) y := by
    intro l
    induction l with
    | nil => intro x y; rfl
    | cons z zs ih =>
      intro x y
      simp only [List.foldl_cons, String.append_assoc]
      exact ih x (y ++ z)
  show (a :: l).foldl (· ++ ·) "" = a ++ l.foldl (· ++ ·) ""
  rw [List.foldl_cons, String.empty_append]
  conv_lhs => rw [show a = a ++ "" from (String.append_empty a).symm]
  exact aux l a ""

/-- The `vocab_html` accumulation loop renders exactly the parsed vocabulary
pairs, in order. -/
theorem vocab_fold (lignes : List (List Char)) (acc : String) :
    lignes.foldl
      (fun acc ligne =>
        match vocab_ligne ligne with
        | some (mot, trad) => acc ++ vocab_item_html mot trad
        | none => acc)
      acc
    = acc ++ String.join ((lignes.filterMap vocab_ligne).map
        fun pt => vocab_item_html pt.1 pt.2) := by
  induction lignes generalizing acc with
  | nil => simp [String.join]
  | cons l ls ih =>
    cases h : vocab_ligne l with
    | none => simp [List.filterMap_cons, h, ih]
    | some p =>
      obtain ⟨mot, trad⟩ := p
      simp [List.filterMap_cons, h, ih, join_cons, String.append_assoc]

/-- C5: the rendered vocabulary block is precisely the concatenation of one
`<li>` item per parsed `(word, translation)` pair — lines are split at their
first `'='` only, the ordinal marker is stripped, both sides are trimmed,
separator-less lines are skipped, and order follows the source lines; on the
four-line example text the derived list is exactly
`[("Haus", "house"), ("gehen", "to go"), ("schön", "beautiful")]`. -/
theorem vocabulaire_derive_spec :
    (∀ voc : String, vocab_html voc =
        String.join ((liste_vocab voc).map fun pt => vocab_item_html pt.1 pt.2)) ∧
      liste_vocab
        "1. Haus = house\n2. gehen = to go\nnotes without separator\n3. schön = beautiful"
        = [("Haus", "house"), ("gehen", "to go"), ("schön", "beautiful")] := by
  refine ⟨?_, ?_⟩
  · intro voc
    unfold vocab_html liste_vocab
    simpa using vocab_fold (decoupeLignes voc.data) ""
  · decide

/-- Witness for C5: the general rendering equation applied to a one-line
vocabulary slot. -/
theorem vocabulaire_derive_temoin :
    vocab_html "1. Haus = house" =
      String.join ((liste_vocab "1. Haus = house").map
        fun pt => vocab_item_html pt.1 pt.2) :=
  vocabulaire_derive_spec.1 "1. Haus = house"

/-! ## Claims about the four-section generation protocol -/

/-- C2: `generer_newsletter_llm` returns either a `Sections` record whose
four slots are all present and non-empty (each equal to the corresponding
generation result) or `none`; the generation requests are issued in the
fixed order `article, vocabulaire, grammaire, resume`, stopping right after
the first missing-or-empty result; and it succeeds exactly when all four
results are valid — so the renderer is only ever handed a fully populated
record. -/
theorem generation_sections_spec (gen : String → Option String) :
    (∀ s, generer_newsletter_llm gen = some s →
        s.article ≠ "" ∧ s.vocabulaire ≠ "" ∧ s.grammaire ≠ "" ∧ s.resume ≠ "" ∧
        gen "article" = some s.article ∧ gen "vocabulaire" = some s.vocabulaire ∧
        gen "grammaire" = some s.grammaire ∧ gen "resume" = some s.resume) ∧
      appels_sections gen =
        ordre_sections.take
          (ordre_sections.findIdx (fun t => !section_valide (gen t)) + 1) ∧
      ((generer_newsletter_llm gen).isSome ↔
        ∀ t ∈ ordre_sections, section_valide (gen t) = true) := by
  rcases ha : gen "article" with _ | a
  · refine ⟨?_, ?_, ?_⟩ <;>
      simp [generer_newsletter_llm, appels_sections, generer_newsletter_llm_trace,
        ha, ordre_sections, section_valide, List.findIdx_cons, Bool.cond_eq_ite, bne_iff_ne]
  by_cases ha0 : a = ""
  · subst ha0
    refine ⟨?_, ?_, ?_⟩ <;>
      simp [generer_newsletter_llm, appels_sections, generer_newsletter_llm_trace,
        ha, ordre_sections, section_valide, List.findIdx_cons, Bool.cond_eq_ite, bne_iff_ne]
  rcases hv : gen "vocabulaire" with _ | v
  · refine ⟨?_, ?_, ?_⟩ <;>
      simp [generer_newsletter_llm, appels_sections, generer_newsletter_llm_trace,
        ha, ha0, hv, ordre_sections, section_valide, List.findIdx_cons, Bool.cond_eq_ite, bne_iff_ne]
  by_cases hv0 : v = ""
  · subst hv0
    refine ⟨?_, ?_, ?_⟩ <;>
      simp [generer_newsletter_llm, appels_sections, generer_newsletter_llm_trace,
        ha, ha0, hv, ordre_sections, section_valide, List.findIdx_cons, Bool.cond_eq_ite, bne_iff_ne]
  rcases hg : gen "grammaire" with _ | g
  · refine ⟨?_, ?_, ?_⟩ <;>
      simp [generer_newsletter_llm, appels_sections, generer_newsletter_llm_trace,
        ha, ha0, hv, hv0, hg, ordre_sections, section_valide, List.findIdx_cons, Bool.cond_eq_ite, bne_iff_ne]
  by_cases hg0 : g = ""
  · subst hg0
    refine ⟨?_, ?_, ?_⟩ <;>
      simp [generer_newsletter_llm, appels_sections, generer_newsletter_llm_trace,
        ha, ha0, hv, hv0, hg, ordre_sections, section_valide, List.findIdx_cons, Bool.cond_eq_ite, bne_iff_ne]
  rcases hr : gen "resume" with _ | r
  · refine ⟨?_, ?_, ?_⟩ <;>
      simp [generer_newsletter_llm, appels_sections, generer_newsletter_llm_trace,
        ha, ha0, hv, hv0, hg, hg0, hr, ordre_sections, section_valide,
        List.findIdx_cons, Bool.cond_eq_ite, bne_iff_ne]
  by_cases hr0 : r = ""
  · subst hr0
    refine ⟨?_, ?_, ?_⟩ <;>
      simp [generer_newsletter_llm, appels_sections, generer_newsletter_llm_trace,
        ha, ha0, hv, hv0, hg, hg0, hr, ordre_sections, section_valide,
        List.findIdx_cons, Bool.cond_eq_ite, bne_iff_ne]
  refine ⟨?_, ?_, ?_⟩ <;>
    simp [generer_newsletter_llm, appels_sections, generer_newsletter_llm_trace,
      ha, ha0, hv, hv0, hg, hg0, hr, hr0, ordre_sections, section_valide,
      List.findIdx_cons, Bool.cond_eq_ite, bne_iff_ne]

/-- Witness for C2: a backend echoing each requested section kind yields a
successful (fully populated) section set. -/
theorem generation_sections_temoin :
    (generer_newsletter_llm (fun t => some t)).isSome = true :=
  (generation_sections_spec (fun t => some t)).2.2.mpr (by decide)

/-! ## Claim about rendering determinism -/

/-- C9: HTML assembly is a pure function of title, sections, source URL,
template text and the frozen date — equal inputs give byte-identical
output. -/
theorem rendu_deterministe (t₁ t₂ : String) (s₁ s₂ : Sections)
    (u₁ u₂ tpl₁ tpl₂ d₁ d₂ : String)
    (ht : t₁ = t₂) (hs : s₁ = s₂) (hu : u₁ = u₂) (htpl : tpl₁ = tpl₂)
    (hd : d₁ = d₂) :
    generer_html t₁ s₁ u₁ tpl₁ d₁ = generer_html t₂ s₂ u₂ tpl₂ d₂ := by
  subst ht hs hu htpl hd
  rfl

/-- A concrete, fully populated section set. -/
def sections_exemple : Sections :=
  { article := "Der Zug ist neu.\nDie Stadt ist alt.",
    vocabulaire := "1. Haus = house\n2. gehen = to go",
    grammaire := "Le présent se forme avec le radical du verbe.",
    resume := "Un résumé court." }

/-- Witness for C9: two renderings of the same concrete inputs coincide. -/
theorem rendu_deterministe_temoin :
    generer_html "Kultur in Berlin" sections_exemple
        "https://example.invalid/kultur" "<html>\x7b\x7bDATE\x7d\x7d</html>"
        "01/01/2026"
      = generer_html "Kultur in Berlin" sections_exemple
        "https://example.invalid/kultur" "<html>\x7b\x7bDATE\x7d\x7d</html>"
        "01/01/2026" :=
  rendu_deterministe _ _ _ _ _ _ _ _ _ _ rfl rfl rfl rfl rfl

end Newsletter
